import Mathlib

/-!
Verification development for the musico-bot source (`bot.py`).

The Python source is shallowly embedded below.  Strings are modelled as
`List Char` (Python `str` is a sequence of code points), Python `int` as
`Nat`/`Int`.  Each definition is translated directly from the function it is
named after in `bot.py`; deviations forced by Lean (e.g. fuel arguments for
structural recursion) are noted at the definition.
-/

namespace Musico

/-! ## Basic string machinery shared by several functions -/

/-- `isPrefixOfL pat l` is true when `pat` is a leading segment of `l`
(character-by-character comparison, as Python string matching does). -/
def isPrefixOfL : List Char → List Char → Bool
  | [], _ => true
  | _ :: _, [] => false
  | a :: as, b :: bs => a == b && isPrefixOfL as bs

/-- `containsL hay needle`: Python's `needle in hay` substring test. -/
def containsL : List Char → List Char → Bool
  | [], needle => isPrefixOfL needle []
  | c :: t, needle => isPrefixOfL needle (c :: t) || containsL t needle

/-- Python `str.strip()` whitespace class, restricted to the ASCII whitespace
characters (all inputs considered in this development are ASCII). -/
def isPyWs (c : Char) : Bool :=
  c == ' ' || c == '\t' || c == '\n' || c == '\r' || c == '\x0b' || c == '\x0c'

/-- Python `str.strip()`: remove leading and trailing whitespace. -/
def stripL (l : List Char) : List Char :=
  ((l.dropWhile isPyWs).reverse.dropWhile isPyWs).reverse

/-- The character class of `re.sub(r'[\s/\\:*?"<>|]+', '_', base)` in
`CloudUploader.safe_filename` (`bot.py` line 135). -/
def unsafeChar (c : Char) : Bool :=
  isPyWs c || c == '/' || c == '\\' || c == ':' || c == '*' || c == '?' ||
    c == '"' || c == '<' || c == '>' || c == '|'

/-- Worker for the `re.sub` run replacement: `prev` records whether the
previous character belonged to an (already replaced) unsafe run, so each
maximal run of unsafe characters is rewritten to a single `'_'`. -/
def sanitizeAux : Bool → List Char → List Char
  | _, [] => []
  | prev, c :: rest =>
    if unsafeChar c then
      if prev then sanitizeAux true rest
      else '_' :: sanitizeAux true rest
    else c :: sanitizeAux false rest

/-- `re.sub(r'[\s/\\:*?"<>|]+', '_', base)`: every maximal run of unsafe
characters becomes one underscore. -/
def sanitize (l : List Char) : List Char := sanitizeAux false l

/-- The `.encode("ascii", "ignore").decode("ascii")` step: drop every
non-ASCII character. -/
def asciiFilter (l : List Char) : List Char :=
  l.filter (fun c => decide (c.toNat < 128))

/-- `unicodedata.normalize("NFKD", ...)` restricted to ASCII strings, where
it is the identity (every ASCII character is NFKD-invariant).  General
theorems below are parametrised over an arbitrary normalization function;
this instance is used to evaluate on concrete ASCII inputs. -/
def nfkdAsciiId : List Char → List Char := fun l => l

def notSpecial (c : Char) : Bool := !(c == '.' || c == '/')

/-- `os.path.splitext` (POSIX): split off the extension beginning at the last
dot, unless that dot lies before the last `'/'` or every character between
the last `'/'` and that dot is itself a dot (leading-dot files have no
extension).  Implemented by scanning the reversed string for the last
dot-or-slash. -/
def splitext (s : List Char) : List Char × List Char :=
  match s.reverse.dropWhile notSpecial with
  | [] => (s, [])
  | c :: pre =>
    if c == '/' then (s, [])
    else if (pre.takeWhile (fun d => !(d == '/'))).all (fun d => d == '.') then (s, [])
    else (pre.reverse, c :: (s.reverse.takeWhile notSpecial).reverse)

/-- Python slicing `l[:n]` for a possibly negative `n`. -/
def pySlice (l : List Char) (n : Int) : List Char :=
  if 0 ≤ n then l.take n.toNat else l.take (l.length - n.natAbs)

/-- The extension kept by `safe_filename`: `ext[:10] if len(ext) > 10 else ext`
(`bot.py` line 136). -/
def sfExt (f : List Char) : List Char :=
  let e := (splitext f).2
  if 10 < e.length then e.take 10 else e

/-- The base part produced by `safe_filename` (`bot.py` lines 133-139):
NFKD-normalize, drop non-ASCII, rewrite unsafe runs to `'_'`, then truncate
to `max_length - len(ext)` when longer. -/
def sfBase (nfkd : List Char → List Char) (f : List Char) (maxLength : Int) : List Char :=
  let b := sanitize (asciiFilter (nfkd (splitext f).1))
  let maxB : Int := maxLength - (sfExt f).length
  if maxB < (b.length : Int) then pySlice b maxB else b

/-- `CloudUploader.safe_filename(filename, max_length)` (`bot.py` 130-140),
parametrised by the NFKD normalization function. -/
def safe_filename (nfkd : List Char → List Char) (f : List Char) (maxLength : Int) : List Char :=
  sfBase nfkd f maxLength ++ sfExt f

/-! ## Progress records (`self.download_progress[user_id]`, `bot.py` 1317-1330)

Only the fields read or written by the modelled operations are kept.
`percentage` is stored by the source as `int((completed / total) * 100)`
computed in binary floating point; it is modelled here as the exact integer
floor `completed * 100 / total`.  The float detour can fall one unit below
the exact floor at boundary inputs (e.g. `completed = 29`, `total = 100`
stores `28`, since `(29/100)*100` rounds to `28.999999999999996`), and it
never exceeds it, nor does it exceed `100` when `completed ≤ total`.  For
this reason no theorem below asserts the exact stored percentage at a
universally quantified input: only bound-level facts (which hold under
either computation) and concrete instances (each checked to agree with the
float computation, e.g. `int((1/5)*100) = 20`, `int((2/5)*100) = 40`,
`int((6/5)*100) = 120`) are stated about this field. -/

structure Progress where
  current_track : String
  percentage : Nat
  status : String
  total_tracks : Nat
  completed_tracks : Nat
  playlist_name : Option String
  playlist_info_sent : Bool
deriving DecidableEq, Repr

/-- The initial record built in `process_download` (`bot.py` 1317-1330). -/
def initProgress : Progress :=
  { current_track := "Initializing..."
    percentage := 0
    status := "starting"
    total_tracks := 1
    completed_tracks := 0
    playlist_name := none
    playlist_info_sent := false }

/-! ## The spotdl stream parser (`_process_spotdl_output`, `bot.py` 567-656)

The three `re.search` patterns are implemented as scanners that try every
start position left to right, exactly as `re.search` does; `(\d+)` is a
maximal nonempty digit run, `(.+?)` is the shortest nonempty segment
followed by the rest of the pattern, `(.*?)` the shortest possibly-empty
one, and a trailing `(.+)` takes the whole remainder of the line. -/

def isDigitC (c : Char) : Bool := decide ('0' ≤ c) && decide (c ≤ '9')

def natOfDigits (ds : List Char) : Nat :=
  ds.foldl (fun a c => a * 10 + (c.toNat - 48)) 0

/-- Consume a literal: `some rest` iff `pat` is a leading segment of `l`. -/
def afterLit (pat l : List Char) : Option (List Char) :=
  if isPrefixOfL pat l then some (l.drop pat.length) else none

/-- Attempt `Downloading (\d+) of (\d+): (.+)` anchored at the start of `l`. -/
def tryDownloadingAt (l : List Char) : Option (Nat × Nat × List Char) :=
  match afterLit ("Downloading ".toList) l with
  | none => none
  | some r1 =>
    let ds1 := r1.takeWhile isDigitC
    if ds1 = [] then none else
    match afterLit (" of ".toList) (r1.dropWhile isDigitC) with
    | none => none
    | some r2 =>
      let ds2 := r2.takeWhile isDigitC
      if ds2 = [] then none else
      match afterLit (": ".toList) (r2.dropWhile isDigitC) with
      | none => none
      | some r3 => if r3 = [] then none else some (natOfDigits ds1, natOfDigits ds2, r3)

/-- `re.search(r'Downloading (\d+) of (\d+): (.+)', line)` (`bot.py` 594). -/
def matchDownloading : List Char → Option (Nat × Nat × List Char)
  | [] => none
  | l@(_ :: rest) =>
    match tryDownloadingAt l with
    | some r => some r
    | none => matchDownloading rest

def collectionMarkers : List (List Char) :=
  [" (Playlist)".toList, " (Album)".toList, " (Artist)".toList]

def isMarkerNext (l : List Char) : Bool :=
  collectionMarkers.any (fun m => isPrefixOfL m l)

/-- Shortest nonempty name segment followed by a collection marker: the
`(.+?) \((?:Playlist|Album|Artist)\)` part of the banner pattern. -/
def scanName : List Char → Option (List Char)
  | [] => none
  | c :: rest =>
    if isMarkerNext rest then some [c]
    else
      match scanName rest with
      | some nm => some (c :: nm)
      | none => none

/-- Attempt `Found (\d+) songs? in (.+?) \((?:Playlist|Album|Artist)\)`
anchored at the start of `l`. -/
def tryFoundAt (l : List Char) : Option (Nat × List Char) :=
  match afterLit ("Found ".toList) l with
  | none => none
  | some r1 =>
    let ds := r1.takeWhile isDigitC
    if ds = [] then none else
    match afterLit (" song".toList) (r1.dropWhile isDigitC) with
    | none => none
    | some r2 =>
      let r3 := match r2 with
                | 's' :: t => t
                | _ => r2
      match afterLit (" in ".toList) r3 with
      | none => none
      | some r4 => (scanName r4).map (fun nm => (natOfDigits ds, nm))

/-- `re.search(r'Found (\d+) songs? in (.+?) \((?:Playlist|Album|Artist)\)', line)`
(`bot.py` 581). -/
def matchFound : List Char → Option (Nat × List Char)
  | [] => none
  | l@(_ :: rest) =>
    match tryFoundAt l with
    | some r => some r
    | none => matchFound rest

/-- The shortest (possibly empty) segment followed by the literal `":`. -/
def scanQuoted : List Char → Option (List Char)
  | [] => none
  | c :: rest =>
    if isPrefixOfL ("\":".toList) (c :: rest) then some []
    else (scanQuoted rest).map (fun q => c :: q)

def tryDownloadedAt (l : List Char) : Option (List Char) :=
  (afterLit ("Downloaded \"".toList) l).bind scanQuoted

/-- `re.search(r'Downloaded "(.*?)":', line)` (`bot.py` 606). -/
def matchDownloaded : List Char → Option (List Char)
  | [] => none
  | l@(_ :: rest) =>
    match tryDownloadedAt l with
    | some r => some r
    | none => matchDownloaded rest

def tryNoResultsAt (l : List Char) : Option (List Char) :=
  match afterLit ("No results found for song: ".toList) l with
  | none => none
  | some r => if r = [] then none else some r

/-- `re.search(r'No results found for song: (.+)', line)` (`bot.py` 639). -/
def matchNoResults : List Char → Option (List Char)
  | [] => none
  | l@(_ :: rest) =>
    match tryNoResultsAt l with
    | some r => some r
    | none => matchNoResults rest

/-- Loop-local state of `_process_spotdl_output`: the user's progress
record, the `spotdl_failed` and `fallback_called` flags, plus the record of
search phrases handed to `fallback_download_with_ytdlp` (the body of that
call — a subprocess run — is outside this step relation; its own later
writes to the progress record are modelled separately). -/
structure LoopState where
  progress : Progress
  spotdl_failed : Bool
  fallback_called : Bool
  invocations : List String
deriving DecidableEq, Repr

def initLoop : LoopState :=
  { progress := initProgress
    spotdl_failed := false
    fallback_called := false
    invocations := [] }

/-- Playlist banner handling (`bot.py` 581-592): record total and the
NFKD-normalized, ASCII-filtered collection name once. -/
def bannerStep (nfkd : List Char → List Char) (l : List Char) (p : Progress) : Progress :=
  match matchFound l with
  | some (totalSongs, name) =>
    if p.playlist_info_sent then p
    else
      { p with
        total_tracks := totalSongs
        playlist_name := some (String.mk (asciiFilter (nfkd name)))
        playlist_info_sent := true }
  | none => p

/-- Progress-line handling (`bot.py` 594-613).  `none` models the
`ZeroDivisionError` raised by `int((completed / total) * 100)` when the
divisor is zero; in both such cases the record is still unchanged at the
moment the exception escapes. -/
def progressStep (l : List Char) (p : Progress) : Option Progress :=
  match matchDownloading l with
  | some (i, n, lbl) =>
    if n = 0 then none
    else
      some { p with
             percentage := i * 100 / n
             current_track := String.mk lbl
             completed_tracks := i
             total_tracks := n }
  | none =>
    match matchDownloaded l with
    | some title =>
      let c := if p.completed_tracks < p.total_tracks then p.completed_tracks + 1
               else p.completed_tracks
      if p.total_tracks = 0 then none
      else
        some { p with
               completed_tracks := c
               percentage := min (c * 100 / p.total_tracks) 100
               current_track := String.mk title }
    | none => some p

def spotdlErrorSubstrings : List String :=
  ["AudioProviderError", "LookupError", "KeyError", "DownloaderError",
   "YT-DLP download error"]

def placeholderTracks : List String :=
  ["Initializing...", "Extracting track info...", "Found: "]

/-- Priority 4 of the search-phrase selection (`bot.py` 645-651). -/
def fallbackLabelTerm (original_url : Option String) (p : Progress) : String :=
  if placeholderTracks.contains p.current_track then
    match original_url with
    | some u => u
    | none => "Unknown track"
  else p.current_track

/-- The synthesized search phrase for the secondary strategy
(`bot.py` 631-651): metadata term, then title extracted from a
`No results found for song:` message, then the original locator when it is a
single-track locator, then the current label when it is not a placeholder,
then the original locator, then the fixed default. -/
def searchTermFor (metadata original_url : Option String) (l : List Char) (p : Progress) : String :=
  match metadata with
  | some m => m
  | none =>
    if containsL l ("No results found for song:".toList) then
      match matchNoResults l with
      | some t => String.mk (stripL t)
      | none => "Unknown track"
    else
      match original_url with
      | some u =>
        if containsL u.toList ("spotify.com/track".toList) then u
        else fallbackLabelTerm original_url p
      | none => fallbackLabelTerm original_url p

/-- `error_msg` shortening (`bot.py` 622-625). -/
def errMsgOf (l : List Char) : String :=
  if 100 < l.length then String.mk (l.take 100) ++ "..." else String.mk l

/-- Error-substring handling (`bot.py` 615-654). -/
def errorStep (metadata original_url : Option String) (l : List Char) (st : LoopState) : LoopState :=
  if spotdlErrorSubstrings.any (fun e => containsL l e.toList) then
    if containsL l ("YT-DLP download error".toList) || containsL l ("AudioProviderError".toList) then
      { st with
        spotdl_failed := true
        progress := { st.progress with
                      status := "error"
                      current_track := "Error: " ++ errMsgOf l } }
    else if containsL l ("LookupError".toList) || containsL l ("KeyError".toList) then
      if st.fallback_called then st
      else
        { st with
          spotdl_failed := true
          fallback_called := true
          invocations := st.invocations ++ [searchTermFor metadata original_url l st.progress] }
    else st
  else st

/-- Whether a line takes the lookup-miss branch that invokes the secondary
strategy (`bot.py` 615-627). -/
def isLookupTrigger (l : List Char) : Bool :=
  spotdlErrorSubstrings.any (fun e => containsL l e.toList) &&
    !(containsL l ("YT-DLP download error".toList) || containsL l ("AudioProviderError".toList)) &&
    (containsL l ("LookupError".toList) || containsL l ("KeyError".toList))

/-- One iteration of the read loop of `_process_spotdl_output` for a decoded
line: strip, banner, progress patterns, then error classification. -/
def processLine (nfkd : List Char → List Char) (metadata original_url : Option String)
    (st : LoopState) (line : String) : Option LoopState :=
  let l := stripL line.toList
  (progressStep l (bannerStep nfkd l st.progress)).map
    (fun p2 => errorStep metadata original_url l { st with progress := p2 })

/-- The whole read loop over a list of status lines; an escaping exception
(`none`) aborts the loop. -/
def processLines (nfkd : List Char → List Char) (metadata original_url : Option String)
    (st : LoopState) : List String → Option LoopState
  | [] => some st
  | line :: rest =>
    (processLine nfkd metadata original_url st line).bind
      (fun st' => processLines nfkd metadata original_url st' rest)

/-! ## The periodic corrective recount (`update_progress_periodically`,
`bot.py` 2019-2037) -/

/-- One iteration of the disk-recount fallback for the primary (spotify)
strategy, given the number of `*.mp3` files found in the user's directory:
a positive count overwrites `completed_tracks` and, when the stored total is
positive, recomputes the percentage. -/
def recountStep (fileCount : Nat) (p : Progress) : Progress :=
  if 0 < fileCount then
    { p with
      completed_tracks := fileCount
      percentage := if 0 < p.total_tracks then fileCount * 100 / p.total_tracks
                    else p.percentage }
  else p

/-! ## The progress-message computation (`update_progress_message`,
`bot.py` 1930-1941) -/

/-- `total_tracks` as displayed: `if total_tracks <= 0: total_tracks = 1`. -/
def displayTotal (p : Progress) : Nat :=
  if p.total_tracks ≤ 0 then 1 else p.total_tracks

/-- `completed_tracks` as displayed:
`if completed_tracks > total_tracks: completed_tracks = total_tracks`. -/
def displayCompleted (p : Progress) : Nat :=
  if displayTotal p < p.completed_tracks then displayTotal p else p.completed_tracks

/-- The displayed percentage, recomputed from the clamped counts and capped:
`percentage = (completed/total)*100; if percentage > 100: percentage = 100`
(modelled with the exact integer floor). -/
def displayPct (p : Progress) : Nat :=
  if 100 < displayCompleted p * 100 / displayTotal p then 100
  else displayCompleted p * 100 / displayTotal p

/-- The clamped `(completed, total, percentage)` triple displayed by
`update_progress_message` (the function mutates only local variables, not
the record). -/
def displayCounts (p : Progress) : Nat × Nat × Nat :=
  (displayCompleted p, displayTotal p, displayPct p)

/-! ## The delivery decision (`process_download`, `bot.py` 1428-1463) -/

def file_size_threshold : Nat := 50 * 1024 * 1024

inductive Delivery where
  | directSend
  | zipUpload
  | largeUpload
deriving DecidableEq, Repr

/-- The packaging decision, given the recorded `total_tracks` and the sizes
of the downloaded files: zip-and-upload when the recorded total exceeds one,
more than one file exists, or any file exceeds the threshold; otherwise send
the first file directly when within the threshold.  `none` models the
`IndexError` of `downloaded_files[0]` on an empty list, which the caller has
already excluded (`bot.py` 1420-1426). -/
def decideDelivery (totalTracks : Nat) (sizes : List Nat) : Option Delivery :=
  let is_playlist := decide (1 < totalTracks) || decide (1 < sizes.length)
  let any_large := sizes.any (fun s => decide (file_size_threshold < s))
  if is_playlist || any_large then some Delivery.zipUpload
  else
    match sizes with
    | f :: _ => some (if f ≤ file_size_threshold then Delivery.directSend
                      else Delivery.largeUpload)
    | [] => none

/-- The collection-type request kinds: `extract_spotify_url_info`
(`bot.py` 500) recognizes `track | album | playlist | artist`, of which all
but `track` are multi-item sources. -/
def isCollectionType (ctype : String) : Prop :=
  ctype = "playlist" ∨ ctype = "album" ∨ ctype = "artist"

/-- The direct-send condition in the claim's own words — exactly one output
file, within the threshold, and the source was not a collection-type
request — stated for comparison with the code's `decideDelivery`, whose
third condition is the recorded track total instead. -/
def claimedDirectSend (ctype : String) (sizes : List Nat) : Prop :=
  ∃ f, sizes = [f] ∧ f ≤ file_size_threshold ∧ ¬ isCollectionType ctype

/-- The packaging decision made for a request of the given content type:
`process_download` (`bot.py` 1428-1442) reads only the recorded track total
and the downloaded files at this point — `url_info['type']` is in scope but
never consulted by the decision. -/
def deliveryForRequest (_ctype : String) (totalTracks : Nat) (sizes : List Nat) :
    Option Delivery :=
  decideDelivery totalTracks sizes

/-! ## The fallback-chain search terms (`fallback_download_with_ytdlp`,
`bot.py` 895-971) -/

/-- Fuelled replacement of every occurrence of `"ytsearch1:"` by the empty
string (`track_name_or_url.replace('ytsearch1:', '')`, `bot.py` 900); the
fuel, initialised to the list length, only makes the recursion structural. -/
def removeYtsearchAux : Nat → List Char → List Char
  | 0, l => l
  | _ + 1, [] => []
  | fuel + 1, c :: rest =>
    if isPrefixOfL ("ytsearch1:".toList) (c :: rest) then
      removeYtsearchAux fuel (rest.drop 9)
    else c :: removeYtsearchAux fuel rest

def removeYtsearch (l : List Char) : List Char := removeYtsearchAux l.length l

/-- `clean_search = track_name_or_url.replace('ytsearch1:', '').strip()`
(`bot.py` 900). -/
def cleanSearch (t : String) : String := String.mk (stripL (removeYtsearch t.toList))

/-- The query part of fallback step 2's `ytsearch1:{clean_search}` argument
(`simple_cmd`, `bot.py` 901-918). -/
def step2Query (t : String) : String := cleanSearch t

/-- Fuelled Python `str.split(sep)` for a nonempty separator. -/
def splitOnFuel (sep : List Char) : Nat → List Char → List (List Char)
  | _, [] => [[]]
  | 0, l => [l]
  | fuel + 1, c :: rest =>
    if isPrefixOfL sep (c :: rest) then
      [] :: splitOnFuel sep fuel (rest.drop (sep.length - 1))
    else
      match splitOnFuel sep fuel rest with
      | [] => [[c]]
      | h :: t => (c :: h) :: t

def splitOnL (l sep : List Char) : List (List Char) :=
  if sep = [] then [l] else splitOnFuel sep l.length l

/-- The simplified search of fallback step 3 (`bot.py` 950-954): the part
after `' - '` (or the whole cleaned title), truncated at the first `'('`,
stripped. -/
def step3Simple (t : String) : String :=
  let c := (cleanSearch t).toList
  let parts := splitOnL c (" - ".toList)
  if 2 ≤ parts.length then
    String.mk (stripL (((parts.get? 1).getD []).takeWhile (fun d => !(d == '('))))
  else
    String.mk (stripL (c.takeWhile (fun d => !(d == '('))))

/-- The query part of fallback step 3's `ytsearch1:{simple_search} song`
argument (`bot.py` 970). -/
def step3Query (t : String) : String := step3Simple t ++ " song"

/-! ## The button-callback handler (`handle_callback_query`,
`bot.py` 1773-1844) -/

inductive Stage where
  | awaiting_type
  | awaiting_audio_quality
  | awaiting_video_quality
deriving DecidableEq, Repr

/-- A user's entry in `self.user_state`. -/
structure ConvState where
  url_info : String
  state : Stage
deriving DecidableEq, Repr

/-- The user-visible effect of one callback dispatch. -/
inductive CbOutcome where
  | notForYou
  | sessionExpired
  | askAudioQuality
  | noFormats
  | askVideoQuality
  | startDownload (fmt : String)
  | noop
  | errorCaught
deriving DecidableEq, Repr

/-- `handle_callback_query`, restricted to the presser's own `user_state`
entry (the handler touches no other user's entry).  `presser` is
`callback_query['from']['id']`; `resolutions` stands in for the
`get_youtube_resolutions` network call.  The guard is the source's
substring test `f"|{user_id}" not in data` (`bot.py` 1782); a `ValueError`
from the three-way unpack is caught by the surrounding `except` with the
state unchanged. -/
def handle_callback_query (presser : Nat) (data : String) (st : Option ConvState)
    (resolutions : List Nat) : Option ConvState × CbOutcome :=
  if !(containsL data.toList ('|' :: (Nat.repr presser).toList)) then
    (st, CbOutcome.notForYou)
  else
    match st with
    | none => (none, CbOutcome.sessionExpired)
    | some s =>
      if isPrefixOfL ("yt_type|".toList) data.toList then
        match splitOnL data.toList ['|'] with
        | [_, mt, _] =>
          if mt = "mp3".toList then
            (some { s with state := Stage.awaiting_audio_quality }, CbOutcome.askAudioQuality)
          else if mt = "mp4".toList then
            if resolutions.isEmpty then (none, CbOutcome.noFormats)
            else (some { s with state := Stage.awaiting_video_quality }, CbOutcome.askVideoQuality)
          else (some s, CbOutcome.noop)
        | _ => (some s, CbOutcome.errorCaught)
      else if isPrefixOfL ("yt_audio|".toList) data.toList then
        match splitOnL data.toList ['|'] with
        | [_, fmt, _] => (none, CbOutcome.startDownload (String.mk fmt))
        | _ => (some s, CbOutcome.errorCaught)
      else if isPrefixOfL ("yt_video|".toList) data.toList then
        match splitOnL data.toList ['|'] with
        | [_, fmt, _] => (none, CbOutcome.startDownload (String.mk fmt))
        | _ => (some s, CbOutcome.errorCaught)
      else (some s, CbOutcome.noop)

/-- The user id embedded in a choice payload: the last `'|'`-separated
field, as written by `send_media_type_choice` and friends
(`f"yt_type|mp3|{user_id}"`). -/
def lastField (data : String) : List Char :=
  ((splitOnL data.toList ['|']).getLast?).getD []

/-! ## Archive naming (`get_content_name`, `bot.py` 1955-2010) -/

/-- The generic fallback name `f"{platform}_{content_type}_{content_id}"`
with `content_id = url_info.get('id', str(int(time.time())))`
(`bot.py` 2002-2005). -/
def fallbackName (platform ctype : String) (cid : Option String) (now : Nat) : String :=
  platform ++ "_" ++ ctype ++ "_" ++ cid.getD (Nat.repr now)

/-- The playlist-naming branch of `get_content_name` (`bot.py` 1962-1979):
`some nm` when the job is a playlist (recorded total above one, or a
collection-type locator) and a non-empty collection title was recorded
(Python's truthiness test on the stored name). -/
def playlistBranch : String → Option Progress → Option String
  | _, none => none
  | ctype, some pi =>
    if decide (1 < pi.total_tracks) ||
        (ctype == "playlist" || ctype == "album" || ctype == "artist") then
      match pi.playlist_name with
      | some nm => if nm = "" then none else some nm
      | none => none
    else none

/-- The single-file / fallback naming logic of `get_content_name`
(`bot.py` 1981-2005).  When `progress` is `None` and more than one media
file exists, the source's `progress_info.get('playlist_name')` raises
`AttributeError`, landing in the `except` branch that returns
`f"download_{user_id}_{int(time.time())}"`. -/
def contentNameTail (stems : List String) (platform ctype : String) (cid : Option String)
    (progress : Option Progress) (userId now : Nat) : String :=
  if stems.length = 1 then (stems.head?).getD ""
  else if 1 < stems.length then
    match progress with
    | none => "download_" ++ Nat.repr userId ++ "_" ++ Nat.repr now
    | some pi =>
      match pi.playlist_name with
      | some nm => if nm = "" then fallbackName platform ctype cid now else nm
      | none => fallbackName platform ctype cid now
  else fallbackName platform ctype cid now

/-- `get_content_name(directory, url_info, user_id)`: `stems` are the stems
of the media files found under the directory, `progress` the user's entry in
`download_progress` (absent ⇒ `None`), `now` is `int(time.time())`. -/
def get_content_name (stems : List String) (platform ctype : String) (cid : Option String)
    (progress : Option Progress) (userId now : Nat) : String :=
  match playlistBranch ctype progress with
  | some nm => nm
  | none => contentNameTail stems platform ctype cid progress userId now

/-- The invariant claimed of every progress record. -/
def bounds (p : Progress) : Prop :=
  p.completed_tracks ≤ p.total_tracks ∧ p.percentage ≤ 100

instance (p : Progress) : Decidable (bounds p) :=
  inferInstanceAs (Decidable (_ ∧ _))

/-! ## Helper lemmas: takeWhile, dropWhile, filter -/

theorem mem_takeWhileL {p : Char → Bool} : ∀ {l : List Char} {c : Char},
    c ∈ List.takeWhile p l → p c = true := by
  intro l
  induction l with
  | nil => intro c h; simp [List.takeWhile] at h
  | cons a as ih =>
    intro c h
    cases hpa : p a with
    | true =>
      rw [List.takeWhile_cons, if_pos hpa] at h
      rcases List.mem_cons.mp h with rfl | h2
      · exact hpa
      · exact ih h2
    | false =>
      rw [List.takeWhile_cons, if_neg (by simp [hpa])] at h
      simp at h

theorem takeWhile_of_all {p : Char → Bool} : ∀ (l : List Char),
    (∀ c ∈ l, p c = true) → List.takeWhile p l = l := by
  intro l
  induction l with
  | nil => intro _; rfl
  | cons a as ih =>
    intro h
    rw [List.takeWhile_cons, if_pos (h a (List.mem_cons_self a as))]
    rw [ih (fun c hc => h c (List.mem_cons_of_mem a hc))]

theorem takeWhile_app {p : Char → Bool} : ∀ (xs : List Char) (y : Char) (zs : List Char),
    (∀ c ∈ xs, p c = true) → p y = false →
    List.takeWhile p (xs ++ y :: zs) = xs := by
  intro xs y zs hall hy
  induction xs with
  | nil => simp [List.takeWhile_cons, hy]
  | cons a as ih =>
    rw [List.cons_append, List.takeWhile_cons, if_pos (hall a (List.mem_cons_self a as))]
    rw [ih (fun c hc => hall c (List.mem_cons_of_mem a hc))]

theorem dropWhile_app {p : Char → Bool} : ∀ (xs : List Char) (y : Char) (zs : List Char),
    (∀ c ∈ xs, p c = true) → p y = false →
    List.dropWhile p (xs ++ y :: zs) = y :: zs := by
  intro xs y zs hall hy
  induction xs with
  | nil => simp [List.dropWhile_cons, hy]
  | cons a as ih =>
    rw [List.cons_append, List.dropWhile_cons, if_pos (hall a (List.mem_cons_self a as))]
    exact ih (fun c hc => hall c (List.mem_cons_of_mem a hc))

theorem dropWhile_head_false {p : Char → Bool} : ∀ (l : List Char) {c : Char} {t : List Char},
    List.dropWhile p l = c :: t → p c = false := by
  intro l
  induction l with
  | nil => intro c t h; simp [List.dropWhile] at h
  | cons a as ih =>
    intro c t h
    cases hpa : p a with
    | true =>
      rw [List.dropWhile_cons, if_pos hpa] at h
      exact ih h
    | false =>
      rw [List.dropWhile_cons, if_neg (by simp [hpa])] at h
      cases h
      exact hpa

/-! ## Lemmas about the sanitization pipeline -/

theorem mem_sanitizeAux {c : Char} : ∀ (b : Bool) (l : List Char),
    c ∈ sanitizeAux b l → c = '_' ∨ c ∈ l := by
  intro b l
  induction l generalizing b with
  | nil => intro h; simp [sanitizeAux] at h
  | cons a as ih =>
    intro h
    by_cases hu : unsafeChar a
    · rw [sanitizeAux, if_pos hu] at h
      by_cases hb : b
      · subst hb
        rw [if_pos rfl] at h
        rcases ih true h with h1 | h2
        · exact Or.inl h1
        · exact Or.inr (List.mem_cons_of_mem a h2)
      · simp only [hb, if_neg, Bool.false_eq_true, if_false] at h
        rcases List.mem_cons.mp h with rfl | h2
        · exact Or.inl rfl
        · rcases ih true h2 with h3 | h4
          · exact Or.inl h3
          · exact Or.inr (List.mem_cons_of_mem a h4)
    · rw [sanitizeAux, if_neg hu] at h
      rcases List.mem_cons.mp h with rfl | h2
      · exact Or.inr (List.mem_cons_self _ _)
      · rcases ih false h2 with h3 | h4
        · exact Or.inl h3
        · exact Or.inr (List.mem_cons_of_mem a h4)

theorem sanitizeAux_not_unsafe {c : Char} : ∀ (b : Bool) (l : List Char),
    c ∈ sanitizeAux b l → unsafeChar c = false := by
  intro b l
  induction l generalizing b with
  | nil => intro h; simp [sanitizeAux] at h
  | cons a as ih =>
    intro h
    by_cases hu : unsafeChar a
    · rw [sanitizeAux, if_pos hu] at h
      by_cases hb : b
      · subst hb; rw [if_pos rfl] at h; exact ih true h
      · simp only [hb, Bool.false_eq_true, if_false] at h
        rcases List.mem_cons.mp h with rfl | h2
        · decide
        · exact ih true h2
    · rw [sanitizeAux, if_neg hu] at h
      rcases List.mem_cons.mp h with rfl | h2
      · exact Bool.eq_false_iff.mpr hu
      · exact ih false h2

theorem sanitizeAux_id : ∀ (l : List Char), (∀ c ∈ l, unsafeChar c = false) →
    ∀ b, sanitizeAux b l = l := by
  intro l
  induction l with
  | nil => intro _ b; rfl
  | cons a as ih =>
    intro h b
    rw [sanitizeAux, if_neg (by simp [h a (List.mem_cons_self a as)])]
    rw [ih (fun c hc => h c (List.mem_cons_of_mem a hc)) false]

theorem asciiFilter_id (l : List Char) (h : ∀ c ∈ l, c.toNat < 128) :
    asciiFilter l = l :=
  List.filter_eq_self.mpr (fun c hc => by simp [h c hc])

theorem mem_asciiFilter {c : Char} {l : List Char} (h : c ∈ asciiFilter l) :
    c.toNat < 128 := by
  have := List.of_mem_filter h
  exact of_decide_eq_true this

/-! ## Lemmas about splitext and the safe_filename pieces -/

theorem splitext_nil_case {s : List Char}
    (h : s.reverse.dropWhile notSpecial = []) : splitext s = (s, []) := by
  unfold splitext
  rw [h]

theorem splitext_cons_case {s : List Char} {c : Char} {pre : List Char}
    (h : s.reverse.dropWhile notSpecial = c :: pre) :
    splitext s =
      if c == '/' then (s, [])
      else if (pre.takeWhile (fun d => !(d == '/'))).all (fun d => d == '.') then (s, [])
      else (pre.reverse, c :: (s.reverse.takeWhile notSpecial).reverse) := by
  unfold splitext
  rw [h]

/-- Re-splitting a name of the form `base ++ '.' ++ rest` recovers the same
base and extension, provided the extension tail has no further dot or slash,
the base has no slash, and the base is not made of dots only. -/
theorem splitext_append {b rest : List Char}
    (hb : ∀ c ∈ b, c ≠ '/') (hr : ∀ c ∈ rest, c ≠ '.' ∧ c ≠ '/')
    (hnd : ∃ c ∈ b, c ≠ '.') :
    splitext (b ++ '.' :: rest) = (b, '.' :: rest) := by
  have hrev : (b ++ '.' :: rest).reverse = rest.reverse ++ '.' :: b.reverse := by
    simp
  have hallr : ∀ c ∈ rest.reverse, notSpecial c = true := by
    intro c hc
    have := hr c (List.mem_reverse.mp hc)
    simp [notSpecial, this.1, this.2]
  have hdot : notSpecial '.' = false := by decide
  have h1 : List.takeWhile notSpecial ((b ++ '.' :: rest).reverse) = rest.reverse := by
    rw [hrev]; exact takeWhile_app _ _ _ hallr hdot
  have h2 : List.dropWhile notSpecial ((b ++ '.' :: rest).reverse) = '.' :: b.reverse := by
    rw [hrev]; exact dropWhile_app _ _ _ hallr hdot
  have hslash : ('.' == '/') = false := by decide
  have hbet : List.takeWhile (fun d => !(d == '/')) b.reverse = b.reverse :=
    takeWhile_of_all _ (fun c hc => by
      have := hb c (List.mem_reverse.mp hc); simp [this])
  have hnall : (b.reverse.all (fun d => d == '.')) = false := by
    rcases hnd with ⟨c, hc, hcd⟩
    apply Bool.eq_false_iff.mpr
    intro hall
    have := List.all_eq_true.mp hall c (List.mem_reverse.mpr hc)
    exact hcd (by simpa using this)
  rw [splitext_cons_case h2]
  simp only [hslash, Bool.false_eq_true, if_false, hbet, hnall, h1, List.reverse_reverse]

theorem sfExt_len (f : List Char) : (sfExt f).length ≤ 10 := by
  unfold sfExt
  by_cases h : 10 < (splitext f).2.length
  · rw [if_pos h, List.length_take]
    omega
  · rw [if_neg h]
    omega

/-- The kept extension is empty, or starts with a dot and continues with
characters that are neither dots nor slashes. -/
theorem sfExt_shape (f : List Char) :
    sfExt f = [] ∨ ∃ rest, sfExt f = '.' :: rest ∧ ∀ c ∈ rest, c ≠ '.' ∧ c ≠ '/' := by
  have hsnd : (splitext f).2 = [] ∨
      ∃ tl, (splitext f).2 = '.' :: tl ∧ ∀ c ∈ tl, c ≠ '.' ∧ c ≠ '/' := by
    cases hdw : List.dropWhile notSpecial f.reverse with
    | nil => left; rw [splitext_nil_case hdw]
    | cons c pre =>
      rw [splitext_cons_case hdw]
      have hc : notSpecial c = false := dropWhile_head_false _ hdw
      by_cases hcs : (c == '/') = true
      · left; rw [if_pos hcs]
      · rw [if_neg hcs]
        have hcd : c = '.' := by
          simp only [notSpecial, Bool.not_eq_false', Bool.or_eq_true, beq_iff_eq] at hc
          rcases hc with h | h
          · exact h
          · exact absurd (by simp [h]) hcs
        by_cases hall : ((List.takeWhile (fun d => !(d == '/')) pre).all (fun d => d == '.')) = true
        · left; rw [if_pos hall]
        · rw [if_neg hall]
          right
          refine ⟨(List.takeWhile notSpecial f.reverse).reverse, by rw [hcd], ?_⟩
          intro d hd
          have hmem : d ∈ List.takeWhile notSpecial f.reverse := List.mem_reverse.mp hd
          have hns := mem_takeWhileL hmem
          constructor
          · intro hdd; rw [hdd] at hns; exact absurd hns (by decide)
          · intro hdd; rw [hdd] at hns; exact absurd hns (by decide)
  unfold sfExt
  rcases hsnd with h | ⟨tl, htl, hprop⟩
  · left; simp [h]
  · by_cases hlen : 10 < (splitext f).2.length
    · right
      refine ⟨tl.take 9, ?_, ?_⟩
      · rw [if_pos hlen, htl]; rfl
      · intro c hc; exact hprop c (List.take_subset 9 tl hc)
    · right
      exact ⟨tl, by rw [if_neg hlen, htl], hprop⟩

theorem sfBase_props {nfkd : List Char → List Char} {f : List Char} {n : Int} :
    ∀ c ∈ sfBase nfkd f n, c.toNat < 128 ∧ unsafeChar c = false := by
  intro c hc
  have hmem : c ∈ sanitize (asciiFilter (nfkd (splitext f).1)) := by
    unfold sfBase at hc
    by_cases h : n - ((sfExt f).length : Int) < ((sanitize (asciiFilter (nfkd (splitext f).1))).length : Int)
    · rw [if_pos h] at hc
      unfold pySlice at hc
      by_cases h0 : (0 : Int) ≤ n - ((sfExt f).length : Int)
      · rw [if_pos h0] at hc; exact List.take_subset _ _ hc
      · rw [if_neg h0] at hc; exact List.take_subset _ _ hc
    · rw [if_neg h] at hc; exact hc
  have hsafe : unsafeChar c = false := sanitizeAux_not_unsafe false _ hmem
  have hascii : c.toNat < 128 := by
    rcases mem_sanitizeAux false _ hmem with rfl | h2
    · decide
    · exact mem_asciiFilter h2
  exact ⟨hascii, hsafe⟩

theorem sfBase_length {nfkd : List Char → List Char} {f : List Char} {n : Int}
    (h : ((sfExt f).length : Int) ≤ n) :
    ((sfBase nfkd f n).length : Int) ≤ n - (sfExt f).length := by
  unfold sfBase
  set b := sanitize (asciiFilter (nfkd (splitext f).1)) with hb
  set maxB : Int := n - ((sfExt f).length : Int) with hmax
  have hmB : 0 ≤ maxB := by omega
  by_cases hlt : maxB < (b.length : Int)
  · rw [if_pos hlt]
    unfold pySlice
    rw [if_pos hmB]
    have : (b.take maxB.toNat).length = min maxB.toNat b.length := by
      simp
    rw [this]
    have h1 : min maxB.toNat b.length ≤ maxB.toNat := Nat.min_le_left _ _
    omega
  · rw [if_neg hlt]
    omega

/-! ## Parser step reduction and preservation lemmas -/

theorem bannerStep_not_found {nfkd : List Char → List Char} {l : List Char} {p : Progress}
    (h : matchFound l = none) : bannerStep nfkd l p = p := by
  unfold bannerStep
  rw [h]

theorem bannerStep_found {nfkd : List Char → List Char} {l : List Char} {p : Progress}
    {N : Nat} {nm : List Char} (h : matchFound l = some (N, nm)) :
    bannerStep nfkd l p =
      if p.playlist_info_sent then p
      else
        { p with
          total_tracks := N
          playlist_name := some (String.mk (asciiFilter (nfkd nm)))
          playlist_info_sent := true } := by
  unfold bannerStep
  rw [h]

theorem progressStep_dl {l : List Char} {p : Progress} {i n : Nat} {lbl : List Char}
    (h : matchDownloading l = some (i, n, lbl)) :
    progressStep l p =
      if n = 0 then none
      else
        some { p with
               percentage := i * 100 / n
               current_track := String.mk lbl
               completed_tracks := i
               total_tracks := n } := by
  unfold progressStep
  rw [h]

theorem progressStep_dld {l : List Char} {p : Progress} {title : List Char}
    (h1 : matchDownloading l = none) (h2 : matchDownloaded l = some title) :
    progressStep l p =
      (if p.total_tracks = 0 then none
       else
         some { p with
                completed_tracks :=
                  if p.completed_tracks < p.total_tracks then p.completed_tracks + 1
                  else p.completed_tracks
                percentage :=
                  min ((if p.completed_tracks < p.total_tracks then p.completed_tracks + 1
                        else p.completed_tracks) * 100 / p.total_tracks) 100
                current_track := String.mk title }) := by
  unfold progressStep
  rw [h1, h2]

theorem progressStep_plain {l : List Char} {p : Progress}
    (h1 : matchDownloading l = none) (h2 : matchDownloaded l = none) :
    progressStep l p = some p := by
  unfold progressStep
  rw [h1, h2]

theorem errorStep_skip {metadata original_url : Option String} {l : List Char} {st : LoopState}
    (h : spotdlErrorSubstrings.any (fun e => containsL l e.toList) = false) :
    errorStep metadata original_url l st = st := by
  unfold errorStep
  rw [if_neg (fun hc => by rw [h] at hc; exact Bool.noConfusion hc)]

/-- `errorStep` never touches the numeric progress fields. -/
theorem errorStep_counts (metadata original_url : Option String) (l : List Char) (st : LoopState) :
    (errorStep metadata original_url l st).progress.completed_tracks
        = st.progress.completed_tracks ∧
    (errorStep metadata original_url l st).progress.total_tracks
        = st.progress.total_tracks ∧
    (errorStep metadata original_url l st).progress.percentage
        = st.progress.percentage := by
  unfold errorStep
  split_ifs <;> simp

theorem pct_le_100 {i n : Nat} (hn : 0 < n) (h : i ≤ n) : i * 100 / n ≤ 100 := by
  have h1 : i * 100 ≤ n * 100 := Nat.mul_le_mul_right 100 h
  have h2 : i * 100 / n ≤ n * 100 / n := Nat.div_le_div_right h1
  have h3 : n * 100 / n = 100 := Nat.mul_div_cancel_left 100 hn
  omega

theorem bannerStep_bounds {nfkd : List Char → List Char} {l : List Char} {p : Progress}
    (hb : bounds p)
    (hB : ∀ N nm, matchFound l = some (N, nm) → p.completed_tracks ≤ N) :
    bounds (bannerStep nfkd l p) := by
  cases hm : matchFound l with
  | none => rw [bannerStep_not_found hm]; exact hb
  | some r =>
    obtain ⟨N, nm⟩ := r
    rw [bannerStep_found hm]
    by_cases hs : p.playlist_info_sent
    · rw [if_pos hs]; exact hb
    · rw [if_neg hs]
      exact ⟨hB N nm hm, hb.2⟩

theorem progressStep_bounds {l : List Char} {p p' : Progress}
    (h : progressStep l p = some p')
    (hb : bounds p)
    (hDL : ∀ i n lbl, matchDownloading l = some (i, n, lbl) → i ≤ n) :
    bounds p' := by
  cases hm : matchDownloading l with
  | some r =>
    obtain ⟨i, n, lbl⟩ := r
    rw [progressStep_dl hm] at h
    by_cases hn : n = 0
    · rw [if_pos hn] at h; cases h
    · rw [if_neg hn] at h
      injection h with h
      subst h
      refine ⟨hDL i n lbl hm, ?_⟩
      exact pct_le_100 (Nat.pos_of_ne_zero hn) (hDL i n lbl hm)
  | none =>
    cases hm2 : matchDownloaded l with
    | some title =>
      rw [progressStep_dld hm hm2] at h
      by_cases ht : p.total_tracks = 0
      · rw [if_pos ht] at h; cases h
      · rw [if_neg ht] at h
        injection h with h
        subst h
        constructor
        · by_cases hc : p.completed_tracks < p.total_tracks
          · simp only [if_pos hc]; omega
          · simp only [if_neg hc]; exact hb.1
        · exact Nat.min_le_right _ _
    | none =>
      rw [progressStep_plain hm hm2] at h
      injection h with h
      subst h
      exact hb

theorem processLine_eq (nfkd : List Char → List Char) (metadata original_url : Option String)
    (st : LoopState) (line : String) :
    processLine nfkd metadata original_url st line =
      (progressStep (stripL line.toList) (bannerStep nfkd (stripL line.toList) st.progress)).map
        (fun p2 => errorStep metadata original_url (stripL line.toList)
          { st with progress := p2 }) := rfl

theorem processLine_bounds {nfkd : List Char → List Char} {metadata original_url : Option String}
    {st st' : LoopState} {line : String}
    (h : processLine nfkd metadata original_url st line = some st')
    (hb : bounds st.progress)
    (hDL : ∀ i n lbl, matchDownloading (stripL line.toList) = some (i, n, lbl) → i ≤ n)
    (hB : ∀ N nm, matchFound (stripL line.toList) = some (N, nm) →
      st.progress.completed_tracks ≤ N) :
    bounds st'.progress := by
  rw [processLine_eq] at h
  rcases Option.map_eq_some'.mp h with ⟨p2, hp2, hst⟩
  have hb1 : bounds (bannerStep nfkd (stripL line.toList) st.progress) :=
    bannerStep_bounds hb hB
  have hb2 : bounds p2 := progressStep_bounds hp2 hb1 hDL
  have hc := errorStep_counts metadata original_url (stripL line.toList) { st with progress := p2 }
  rw [← hst] at *
  exact ⟨by rw [hc.1, hc.2.1]; exact hb2.1, by rw [hc.2.2]; exact hb2.2⟩

/-- The at-most-once invariant on the loop state. -/
def onceInv (st : LoopState) : Prop :=
  (st.fallback_called = false → st.invocations = []) ∧ st.invocations.length ≤ 1

theorem errorStep_once {metadata original_url : Option String} {l : List Char} {st : LoopState}
    (h : onceInv st) : onceInv (errorStep metadata original_url l st) := by
  unfold errorStep
  split_ifs with h1 h2 h3 h4
  · exact ⟨fun hf => h.1 hf, h.2⟩
  · exact h
  · refine ⟨fun hf => by simp at hf, ?_⟩
    have : st.invocations = [] := h.1 (by revert h4; cases st.fallback_called <;> simp)
    simp [this]
  · exact h
  · exact h

theorem errorStep_lookup {metadata original_url : Option String} {l : List Char} {st : LoopState}
    (hf : st.fallback_called = false) (ht : isLookupTrigger l = true) :
    errorStep metadata original_url l st =
      { st with
        spotdl_failed := true
        fallback_called := true
        invocations := st.invocations ++ [searchTermFor metadata original_url l st.progress] } := by
  unfold isLookupTrigger at ht
  simp only [Bool.and_eq_true, Bool.not_eq_true', Bool.or_eq_false_iff, Bool.or_eq_true] at ht
  unfold errorStep
  rw [if_pos ht.1.1,
      if_neg (fun hc => by rw [ht.1.2.1, ht.1.2.2] at hc; exact Bool.noConfusion hc),
      if_pos (show (containsL l ("LookupError".toList) || containsL l ("KeyError".toList)) = true by
        rcases ht.2 with h | h
        · rw [h, Bool.true_or]
        · rw [h, Bool.or_true]),
      if_neg (fun hc => by rw [hf] at hc; exact Bool.noConfusion hc)]

theorem processLine_once {nfkd : List Char → List Char} {metadata original_url : Option String}
    {st st' : LoopState} {line : String}
    (h : processLine nfkd metadata original_url st line = some st')
    (hi : onceInv st) : onceInv st' := by
  rw [processLine_eq] at h
  rcases Option.map_eq_some'.mp h with ⟨p2, _, hst⟩
  rw [← hst]
  exact errorStep_once hi

theorem processLines_once {nfkd : List Char → List Char} {metadata original_url : Option String} :
    ∀ (lines : List String) (st st' : LoopState),
    onceInv st → processLines nfkd metadata original_url st lines = some st' → onceInv st' := by
  intro lines
  induction lines with
  | nil =>
    intro st st' h1 h2
    simp only [processLines] at h2
    injection h2 with h2
    rw [← h2]
    exact h1
  | cons line rest ih =>
    intro st st' h1 h2
    simp only [processLines] at h2
    rcases Option.bind_eq_some.mp h2 with ⟨stm, hm, hrest⟩
    exact ih stm st' (processLine_once hm h1) hrest

theorem searchTermFor_none (original_url : Option String) (l : List Char) (p : Progress) :
    searchTermFor none original_url l p =
      (if containsL l ("No results found for song:".toList) then
        match matchNoResults l with
        | some t => String.mk (stripL t)
        | none => "Unknown track"
      else
        match original_url with
        | some u =>
          if containsL u.toList ("spotify.com/track".toList) then u
          else fallbackLabelTerm original_url p
        | none => fallbackLabelTerm original_url p) := rfl

/-! ## Claim C1 -/

/-- Claim C1 is refuted on the code: the parser stores `completed = i` for a
`Downloading i of n: label` line (`bot.py` 596-602), not `i - 1`, so the
single line `Downloading 1 of 5: SongA` from the initial record leaves
`completed = 1` (the claim requires `0`), and the three-line scenario (in
the spotdl spellings of the spec's generic banner and completion lines) ends
with `completed = 2`, not `1`. -/
theorem c1_counterexample :
    (processLine nfkdAsciiId none none initLoop "Downloading 1 of 5: SongA").map
        (fun s => s.progress.completed_tracks) = some 1 ∧
    (processLine nfkdAsciiId none none initLoop "Downloading 1 of 5: SongA").map
        (fun s => s.progress.completed_tracks) ≠ some 0 ∧
    (processLines nfkdAsciiId none none initLoop
        ["Found 5 songs in MyMix (Playlist)", "Downloading 1 of 5: SongA",
         "Downloaded \"SongA\":"]).map (fun s => s.progress.completed_tracks) = some 2 ∧
    (processLines nfkdAsciiId none none initLoop
        ["Found 5 songs in MyMix (Playlist)", "Downloading 1 of 5: SongA",
         "Downloaded \"SongA\":"]).map (fun s => s.progress.completed_tracks) ≠ some 1 :=
  ⟨by decide, by decide, by decide, by decide⟩

/-- Claim C1 as amended: a `Downloading i of n: label` status line (with
`n > 0`, on a line matching no banner and containing no error substring)
sets `completed = i` — not `i - 1` — together with `total = n` and the
current label `label`; consequently the three-line scenario ends with
`total = 5`, `completed = 2` (the `Downloaded` line increments past the
`Downloading` line's count), a label of `SongA`, and collection name
`MyMix`.  No exact percentage value is asserted here: the source computes
it through binary floating point (`int((i/n)*100)`, `bot.py` 599), which
can fall one below the exact floor used by the model (e.g. `i = 29`,
`n = 100` stores `28`); only bound-level facts about the stored
percentage are claimed elsewhere, and those are insensitive to that
difference. -/
theorem c1_amended :
    (∀ (nfkd : List Char → List Char) (metadata original_url : Option String)
       (st : LoopState) (line : String) (i n : Nat) (lbl : List Char) (st' : LoopState),
       matchFound (stripL line.toList) = none →
       matchDownloading (stripL line.toList) = some (i, n, lbl) →
       0 < n →
       (spotdlErrorSubstrings.any (fun e => containsL (stripL line.toList) e.toList)) = false →
       processLine nfkd metadata original_url st line = some st' →
       st'.progress.completed_tracks = i ∧ st'.progress.total_tracks = n ∧
       st'.progress.current_track = String.mk lbl) ∧
    (processLines nfkdAsciiId none none initLoop
        ["Found 5 songs in MyMix (Playlist)", "Downloading 1 of 5: SongA",
         "Downloaded \"SongA\":"]).map
      (fun s => (s.progress.total_tracks, s.progress.completed_tracks,
                 s.progress.current_track, s.progress.playlist_name))
      = some (5, 2, "SongA", some "MyMix") := by
  constructor
  · intro nfkd md url st line i n lbl st' hF hD hn hE h
    rw [processLine_eq, bannerStep_not_found hF, progressStep_dl hD,
        if_neg (Nat.pos_iff_ne_zero.mp hn), Option.map_some', errorStep_skip hE] at h
    injection h with h
    rw [← h]
    exact ⟨rfl, rfl, rfl⟩
  · decide

theorem c1_amended_witness :
    ({ progress := { current_track := "SongA", percentage := 20, status := "starting",
                     total_tracks := 5, completed_tracks := 1, playlist_name := none,
                     playlist_info_sent := false },
       spotdl_failed := false, fallback_called := false,
       invocations := [] } : LoopState).progress.completed_tracks = 1 := by
  have hres : processLine nfkdAsciiId none none initLoop "Downloading 1 of 5: SongA"
      = some { progress := { current_track := "SongA", percentage := 20, status := "starting",
                             total_tracks := 5, completed_tracks := 1, playlist_name := none,
                             playlist_info_sent := false },
               spotdl_failed := false, fallback_called := false, invocations := [] } := by
    decide
  exact (c1_amended.1 nfkdAsciiId none none initLoop "Downloading 1 of 5: SongA" 1 5
    ("SongA".toList) _ (by decide) (by decide) (by decide) (by decide) hres).1

/-! ## Claim C2 -/

/-- Claim C2 is refuted on the code: the status line `Downloading 6 of 5: X`
processed from the initial record (which satisfies the bounds) leaves
`completed = 6 > 5 = total` and `percentage = 120` — the parser stores
whatever counts the line announces, without clamping (`bot.py` 594-603). -/
theorem c2_counterexample :
    bounds initLoop.progress ∧
    processLine nfkdAsciiId none none initLoop "Downloading 6 of 5: X" =
      some { initLoop with
             progress := { initProgress with
                           current_track := "X", percentage := 120,
                           completed_tracks := 6, total_tracks := 5 } } ∧
    ¬ bounds ({ initProgress with
                current_track := "X", percentage := 120,
                completed_tracks := 6, total_tracks := 5 } : Progress) :=
  ⟨by decide, by decide, by decide⟩

/-- Claim C2 as amended: every modelled progress mutation preserves
`completed ≤ total ∧ percentage ≤ 100` provided each `Downloading i of n`
line announces `i ≤ n`, each collection banner announces a count no smaller
than the current completed count, and the periodic disk recount finds at
most `total` files (or none); the `Downloaded`-line increment and the
progress-message computation need no extra proviso. -/
theorem c2_amended :
    (∀ (nfkd : List Char → List Char) (metadata original_url : Option String)
       (st st' : LoopState) (line : String),
       processLine nfkd metadata original_url st line = some st' →
       bounds st.progress →
       (∀ i n lbl, matchDownloading (stripL line.toList) = some (i, n, lbl) → i ≤ n) →
       (∀ N nm, matchFound (stripL line.toList) = some (N, nm) →
         st.progress.completed_tracks ≤ N) →
       bounds st'.progress) ∧
    (∀ (fileCount : Nat) (p : Progress), bounds p →
       (fileCount ≤ p.total_tracks ∨ fileCount = 0) → bounds (recountStep fileCount p)) ∧
    (∀ p : Progress,
       (displayCounts p).1 ≤ (displayCounts p).2.1 ∧ (displayCounts p).2.2 ≤ 100) := by
  refine ⟨?_, ?_, ?_⟩
  · intro nfkd md url st st' line h hb hDL hB
    exact processLine_bounds h hb hDL hB
  · intro fc p hb hcase
    unfold recountStep
    by_cases hfc : 0 < fc
    · rw [if_pos hfc]
      have hfct : fc ≤ p.total_tracks := by
        rcases hcase with h | h
        · exact h
        · omega
      refine ⟨hfct, ?_⟩
      by_cases ht : 0 < p.total_tracks
      · simp only [if_pos ht]
        exact pct_le_100 ht hfct
      · simp only [if_neg ht]
        exact hb.2
    · rw [if_neg hfc]
      exact hb
  · intro p
    constructor
    · show displayCompleted p ≤ displayTotal p
      unfold displayCompleted
      by_cases h : displayTotal p < p.completed_tracks
      · rw [if_pos h]
      · rw [if_neg h]
        omega
    · show displayPct p ≤ 100
      unfold displayPct
      by_cases h : 100 < displayCompleted p * 100 / displayTotal p
      · rw [if_pos h]
      · rw [if_neg h]
        omega

theorem c2_amended_witness :
    bounds ({ current_track := "X", percentage := 40, status := "starting",
              total_tracks := 5, completed_tracks := 2, playlist_name := none,
              playlist_info_sent := false } : Progress) := by
  have hres : processLine nfkdAsciiId none none initLoop "Downloading 2 of 5: X"
      = some { progress := { current_track := "X", percentage := 40, status := "starting",
                             total_tracks := 5, completed_tracks := 2, playlist_name := none,
                             playlist_info_sent := false },
               spotdl_failed := false, fallback_called := false, invocations := [] } := by
    decide
  have hDL : ∀ i n lbl, matchDownloading (stripL ("Downloading 2 of 5: X").toList)
      = some (i, n, lbl) → i ≤ n := by
    intro i n lbl h
    rw [show matchDownloading (stripL ("Downloading 2 of 5: X").toList)
        = some (2, 5, "X".toList) from by decide] at h
    injection h with h
    simp only [Prod.mk.injEq] at h
    obtain ⟨h1, h2, _⟩ := h
    omega
  have hB : ∀ N nm, matchFound (stripL ("Downloading 2 of 5: X").toList)
      = some (N, nm) → (initLoop.progress).completed_tracks ≤ N := by
    intro N nm h
    rw [show matchFound (stripL ("Downloading 2 of 5: X").toList) = none from by decide] at h
    exact Option.noConfusion h
  exact c2_amended.1 nfkdAsciiId none none initLoop _ "Downloading 2 of 5: X"
    hres (by decide) hDL hB

/-! ## Claim C3 -/

/-- Claim C3 is refuted on the code: the periodic recount simply overwrites
`completed_tracks` with any positive on-disk file count (`bot.py`
2031-2033), so from a record with `completed = 4` a disk count of `2`
lowers the stored count to `2`. -/
theorem c3_counterexample :
    (recountStep 2 { initProgress with completed_tracks := 4, total_tracks := 5
     }).completed_tracks = 2 ∧
    ¬ ({ initProgress with completed_tracks := 4, total_tracks := 5 } :
        Progress).completed_tracks ≤
      (recountStep 2 { initProgress with completed_tracks := 4, total_tracks := 5
       }).completed_tracks :=
  ⟨by decide, by decide⟩

/-- Claim C3 as amended: each recount iteration sets `completed` to the
on-disk count whenever that count is positive — whether that raises or
lowers the stored value — and leaves the record unchanged when the count is
zero; in particular it raises `completed` only when the disk count is at
least the stored count. -/
theorem c3_amended :
    ∀ (fileCount : Nat) (p : Progress),
      (fileCount = 0 → recountStep fileCount p = p) ∧
      (0 < fileCount → (recountStep fileCount p).completed_tracks = fileCount) ∧
      (p.completed_tracks ≤ fileCount →
        p.completed_tracks ≤ (recountStep fileCount p).completed_tracks) := by
  intro fc p
  refine ⟨?_, ?_, ?_⟩
  · intro h
    unfold recountStep
    rw [if_neg (by omega)]
  · intro h
    unfold recountStep
    rw [if_pos h]
  · intro h
    unfold recountStep
    by_cases hfc : 0 < fc
    · rw [if_pos hfc]
      exact h
    · rw [if_neg hfc]

theorem c3_amended_witness :
    initProgress.completed_tracks ≤ (recountStep 3 initProgress).completed_tracks :=
  (c3_amended 3 initProgress).2.2 (by decide)

/-! ## Claim C4 -/

/-- Claim C4's priority order is refuted on the code: with no extracted
metadata, a lookup-miss line that embeds no title, and an original locator
that is not a single-track locator (`spotify.com/album/...`), the code
synthesizes the search phrase from the current progress label (`bot.py`
645-649), whereas the claim ranks the original locator above the label. -/
theorem c4_counterexample :
    (processLine nfkdAsciiId none (some "https://open.spotify.com/album/xyz")
        { initLoop with progress := { initProgress with current_track := "SongX" } }
        "LookupError: oops").map (fun s => s.invocations) = some ["SongX"] ∧
    "SongX" ≠ "https://open.spotify.com/album/xyz" :=
  ⟨by decide, by decide⟩

/-- Claim C4 as amended: within one job the secondary strategy is invoked at
most once no matter how many lookup-miss lines appear, and the search phrase
priority is: extracted metadata title, then the title embedded in a
`No results found for song:` message, then the original locator when it is a
single-track locator, then the current progress label when it is not a
placeholder (the original locator, and finally a fixed default, serve as
last resorts otherwise). -/
theorem c4_amended :
    (∀ (nfkd : List Char → List Char) (metadata original_url : Option String)
       (lines : List String) (st' : LoopState),
       processLines nfkd metadata original_url initLoop lines = some st' →
       st'.invocations.length ≤ 1) ∧
    (∀ (metadata original_url : Option String) (l : List Char) (st : LoopState),
       st.fallback_called = false → isLookupTrigger l = true →
       (errorStep metadata original_url l st).invocations =
         st.invocations ++ [searchTermFor metadata original_url l st.progress]) ∧
    (∀ (m : String) (original_url : Option String) (l : List Char) (p : Progress),
       searchTermFor (some m) original_url l p = m) ∧
    (∀ (original_url : Option String) (l : List Char) (p : Progress) (t : List Char),
       containsL l ("No results found for song:".toList) = true →
       matchNoResults l = some t →
       searchTermFor none original_url l p = String.mk (stripL t)) ∧
    (∀ (u : String) (l : List Char) (p : Progress),
       containsL l ("No results found for song:".toList) = false →
       containsL u.toList ("spotify.com/track".toList) = true →
       searchTermFor none (some u) l p = u) ∧
    (∀ (u : String) (l : List Char) (p : Progress),
       containsL l ("No results found for song:".toList) = false →
       containsL u.toList ("spotify.com/track".toList) = false →
       placeholderTracks.contains p.current_track = false →
       searchTermFor none (some u) l p = p.current_track) := by
  refine ⟨?_, ?_, ?_, ?_, ?_, ?_⟩
  · intro nfkd md url lines st' h
    exact (processLines_once lines initLoop st' ⟨fun _ => rfl, by decide⟩ h).2
  · intro md url l st hf ht
    rw [errorStep_lookup hf ht]
  · intro m url l p
    rfl
  · intro url l p t h1 h2
    rw [searchTermFor_none, if_pos h1, h2]
  · intro u l p h1 h2
    rw [searchTermFor_none, if_neg (fun hc => by rw [h1] at hc; exact Bool.noConfusion hc)]
    show (if containsL u.toList ("spotify.com/track".toList) = true then u
          else fallbackLabelTerm (some u) p) = u
    rw [if_pos h2]
  · intro u l p h1 h2 h3
    rw [searchTermFor_none, if_neg (fun hc => by rw [h1] at hc; exact Bool.noConfusion hc)]
    show (if containsL u.toList ("spotify.com/track".toList) = true then u
          else fallbackLabelTerm (some u) p) = p.current_track
    rw [if_neg (fun hc => by rw [h2] at hc; exact Bool.noConfusion hc)]
    unfold fallbackLabelTerm
    rw [if_neg (fun hc => by rw [h3] at hc; exact Bool.noConfusion hc)]

theorem c4_amended_witness :
    ({ progress := initProgress, spotdl_failed := true, fallback_called := true,
       invocations := ["Unknown track"] } : LoopState).invocations.length ≤ 1 := by
  have hres : processLines nfkdAsciiId none none initLoop ["LookupError a", "KeyError b"]
      = some { progress := initProgress, spotdl_failed := true, fallback_called := true,
               invocations := ["Unknown track"] } := by
    decide
  exact c4_amended.1 nfkdAsciiId none none _ _ hres

/-! ## Claim C5 -/

theorem decideDelivery_single (t f : Nat) :
    decideDelivery t [f] =
      if 1 < t ∨ file_size_threshold < f then some Delivery.zipUpload
      else some (if f ≤ file_size_threshold then Delivery.directSend
                 else Delivery.largeUpload) := by
  unfold decideDelivery
  by_cases h1 : 1 < t <;> by_cases h2 : file_size_threshold < f <;>
    simp [h1, h2]

theorem decideDelivery_multi (t f g : Nat) (rest : List Nat) :
    decideDelivery t (f :: g :: rest) = some Delivery.zipUpload := by
  unfold decideDelivery
  have h : (1 : Nat) < (f :: g :: rest).length := by
    simp only [List.length_cons]
    omega
  rw [if_pos (by simp [h])]

/-- Claim C5 is refuted on the code: the delivery decision never consults
the request's content type — only the recorded track total and the file
list (`bot.py` 1429-1435).  A collection-type (album) request whose banner
announced a single song leaves `total_tracks = 1`, and with one 5 MiB file
the code sends it directly, although the claim's condition requires such a
multi-item-source request to be archived. -/
theorem c5_counterexample :
    deliveryForRequest "album" 1 [5242880] = some Delivery.directSend ∧
    isCollectionType "album" ∧
    ¬ claimedDirectSend "album" [5242880] := by
  refine ⟨by decide, Or.inr (Or.inl rfl), ?_⟩
  rintro ⟨f, _, _, hnc⟩
  exact hnc (Or.inr (Or.inl rfl))

/-- Claim C5 as amended: given at least one output file, the decision is a
direct send exactly when there is a single file within the 50 MiB threshold
and the *recorded* track total does not exceed one (the source's multi-item
test, `bot.py` 1429-1442) — the request's collection-type plays no role, so
any request kind with a recorded total of one and a single small file is
direct-sent; every other outcome with at least one file is the
archive-and-upload path.  The spec's three worked examples follow. -/
theorem c5_delivery_decision :
    (∀ (totalTracks : Nat) (sizes : List Nat), sizes ≠ [] →
       (decideDelivery totalTracks sizes = some Delivery.directSend ↔
         ∃ f, sizes = [f] ∧ f ≤ file_size_threshold ∧ totalTracks ≤ 1)) ∧
    (∀ (totalTracks : Nat) (sizes : List Nat), sizes ≠ [] →
       decideDelivery totalTracks sizes ≠ some Delivery.directSend →
       decideDelivery totalTracks sizes = some Delivery.zipUpload) ∧
    decideDelivery 1 [10485760, 10485760, 10485760] = some Delivery.zipUpload ∧
    decideDelivery 1 [62914560] = some Delivery.zipUpload ∧
    decideDelivery 1 [5242880] = some Delivery.directSend ∧
    (∀ (ctype : String) (f : Nat), f ≤ file_size_threshold →
       deliveryForRequest ctype 1 [f] = some Delivery.directSend) := by
  refine ⟨?_, ?_, by decide, by decide, by decide, ?_⟩
  · intro t sizes hne
    rcases sizes with _ | ⟨f, _ | ⟨g, rest⟩⟩
    · exact absurd rfl hne
    · rw [decideDelivery_single]
      by_cases h1 : 1 < t
      · rw [if_pos (Or.inl h1)]
        constructor
        · intro h
          exact absurd (Option.some.inj h) (by decide)
        · rintro ⟨f', _, _, ht⟩
          omega
      · by_cases h2 : file_size_threshold < f
        · rw [if_pos (Or.inr h2)]
          constructor
          · intro h
            exact absurd (Option.some.inj h) (by decide)
          · rintro ⟨f', hf', hle, _⟩
            simp only [List.cons.injEq, and_true] at hf'
            omega
        · rw [if_neg (not_or.mpr ⟨h1, h2⟩), if_pos (by omega)]
          constructor
          · intro _
            exact ⟨f, rfl, by omega, by omega⟩
          · intro _
            rfl
    · rw [decideDelivery_multi]
      constructor
      · intro h
        exact absurd (Option.some.inj h) (by decide)
      · rintro ⟨f', hf', _, _⟩
        simp at hf'
  · intro t sizes hne hnd
    rcases sizes with _ | ⟨f, _ | ⟨g, rest⟩⟩
    · exact absurd rfl hne
    · rw [decideDelivery_single] at hnd ⊢
      by_cases hc : 1 < t ∨ file_size_threshold < f
      · rw [if_pos hc]
      · rw [if_neg hc] at hnd ⊢
        push_neg at hc
        rw [if_pos (by omega)] at hnd
        exact absurd rfl hnd
    · rw [decideDelivery_multi]
  · intro ctype f hf
    unfold deliveryForRequest
    rw [decideDelivery_single, if_neg (not_or.mpr ⟨by omega, by omega⟩), if_pos hf]

theorem c5_delivery_decision_witness :
    decideDelivery 1 [5242880] = some Delivery.directSend :=
  (c5_delivery_decision.1 1 [5242880] (by decide)).mpr
    ⟨5242880, rfl, by decide, by decide⟩

/-! ## Claim C6 -/

/-- Claim C6 identifies a bug in the code: the ownership guard is the
substring test `f"|{user_id}" not in data` (`bot.py` 1782), so presser 123
passes the guard for a payload addressed to user 12345 (the payload contains
`"|123"` inside `"|12345"`), and the handler then mutates user 123's own
conversation state instead of rejecting the press with the
`This button is not for you` message. -/
theorem c6_code_behavior :
    lastField "yt_type|mp3|12345" = "12345".toList ∧
    "12345".toList ≠ (Nat.repr 123).toList ∧
    handle_callback_query 123 "yt_type|mp3|12345"
        (some { url_info := "https://youtu.be/abc", state := Stage.awaiting_type }) [] =
      (some { url_info := "https://youtu.be/abc", state := Stage.awaiting_audio_quality },
       CbOutcome.askAudioQuality) ∧
    CbOutcome.askAudioQuality ≠ CbOutcome.notForYou ∧
    some ({ url_info := "https://youtu.be/abc", state := Stage.awaiting_audio_quality } :
        ConvState) ≠
      some ({ url_info := "https://youtu.be/abc", state := Stage.awaiting_type } : ConvState) :=
  ⟨by decide, by decide, by decide, by decide, by decide⟩

/-! ## Claim C7 -/

theorem mk_toList (s : String) : String.mk s.toList = s := rfl

theorem containsL_cons_elim {c : Char} {hay needle : List Char}
    (h : containsL (c :: hay) needle = false) :
    isPrefixOfL needle (c :: hay) = false ∧ containsL hay needle = false := by
  rw [containsL] at h
  exact Bool.or_eq_false_iff.mp h

theorem removeYtsearchAux_id : ∀ (fuel : Nat) (l : List Char),
    containsL l ("ytsearch1:".toList) = false → removeYtsearchAux fuel l = l := by
  intro fuel
  induction fuel with
  | zero =>
    intro l _
    rfl
  | succ n ih =>
    intro l h
    cases l with
    | nil => rfl
    | cons c rest =>
      obtain ⟨h1, h2⟩ := containsL_cons_elim h
      rw [removeYtsearchAux, if_neg (fun hc => by rw [h1] at hc; exact Bool.noConfusion hc),
          ih rest h2]

/-- Claim C7 is refuted on the code: fallback step 2 (`simple_cmd`, run
under the alternate `web,mweb` client identity after step 1 produced no
files) searches with the full cleaned title — for the title `Song (Live)`
its query is `Song (Live)`, not the parenthetical-stripped `Song`. -/
theorem c7_counterexample :
    step2Query "Song (Live)" = "Song (Live)" ∧ step2Query "Song (Live)" ≠ "Song" :=
  ⟨by decide, by decide⟩

/-- Claim C7 as amended: step 2's search query is the known title unchanged
(for any title containing no `ytsearch1:` marker and no surrounding
whitespace); the trailing-parenthetical stripping happens only in step 3,
whose query is the segment after `' - '` (or the whole title) truncated at
the first `'('`, stripped, with `' song'` appended — e.g.
`Artist - Song (Live)` gives `Song song`. -/
theorem c7_amended :
    (∀ t : String,
       containsL t.toList ("ytsearch1:".toList) = false →
       stripL t.toList = t.toList →
       step2Query t = t) ∧
    step3Query "Artist - Song (Live)" = "Song song" ∧
    step3Query "Song (Live)" = "Song song" := by
  refine ⟨?_, by decide, by decide⟩
  intro t h1 h2
  unfold step2Query cleanSearch removeYtsearch
  rw [removeYtsearchAux_id t.toList.length t.toList h1, h2]
  exact mk_toList t

theorem c7_amended_witness : step2Query "Artist - Song (Live)" = "Artist - Song (Live)" :=
  c7_amended.1 "Artist - Song (Live)" (by decide) (by decide)

/-! ## Claim C9 -/

theorem playlistBranch_pos {ctype : String} {pi : Progress} {nm : String}
    (hp : 1 < pi.total_tracks ∨ ctype = "playlist" ∨ ctype = "album" ∨ ctype = "artist")
    (hn : pi.playlist_name = some nm) (hne : nm ≠ "") :
    playlistBranch ctype (some pi) = some nm := by
  rw [playlistBranch,
      if_pos (show (decide (1 < pi.total_tracks) ||
        (ctype == "playlist" || ctype == "album" || ctype == "artist")) = true by
          rcases hp with h | h | h | h <;> simp [h])]
  simp only [hn]
  rw [if_neg hne]

theorem playlistBranch_noname {ctype : String} {pi : Progress}
    (hn : pi.playlist_name = none) :
    playlistBranch ctype (some pi) = none := by
  rw [playlistBranch]
  by_cases h : (decide (1 < pi.total_tracks) ||
      (ctype == "playlist" || ctype == "album" || ctype == "artist")) = true
  · rw [if_pos h]
    simp only [hn]
  · rw [if_neg h]

/-- Claim C9's generated fallback is refuted on the code: with no recorded
collection title and no media files the generated name is
`f"{platform}_{content_type}_{content_id}"` — three components, with no
trailing timestamp (`bot.py` 2002-2005); for the job below the claim's
format would require the trailing `_1700000000`. -/
theorem c9_counterexample :
    get_content_name [] "spotify" "track" (some "abc123") (some initProgress) 7 1700000000
      = "spotify_track_abc123" ∧
    "spotify_track_abc123" ≠ "spotify_track_abc123_1700000000" :=
  ⟨by decide, by decide⟩

/-- Claim C9 as amended: the name is the recorded collection title when the
job is collection-type (or more than one track was recorded) and a
non-empty title exists; otherwise the single file's own stem when exactly
one media file exists; otherwise the generated fallback
`{provider}_{kind}_{identifier}` — with a timestamp substituted only for a
missing identifier (and in the exception fallback `download_{user}_{time}`
when no progress record exists with several files). -/
theorem c9_amended :
    (∀ (stems : List String) (platform ctype : String) (cid : Option String)
       (pi : Progress) (userId now : Nat) (nm : String),
       (1 < pi.total_tracks ∨ ctype = "playlist" ∨ ctype = "album" ∨ ctype = "artist") →
       pi.playlist_name = some nm → nm ≠ "" →
       get_content_name stems platform ctype cid (some pi) userId now = nm) ∧
    (∀ (s platform ctype : String) (cid : Option String) (pi : Progress) (userId now : Nat),
       pi.playlist_name = none →
       get_content_name [s] platform ctype cid (some pi) userId now = s) ∧
    (∀ (s platform ctype : String) (cid : Option String) (userId now : Nat),
       get_content_name [s] platform ctype cid none userId now = s) ∧
    (∀ (platform ctype : String) (cid : Option String) (pi : Progress) (userId now : Nat),
       pi.playlist_name = none →
       get_content_name [] platform ctype cid (some pi) userId now =
         platform ++ "_" ++ ctype ++ "_" ++ cid.getD (Nat.repr now)) := by
  refine ⟨?_, ?_, ?_, ?_⟩
  · intro stems platform ctype cid pi userId now nm hp hn hne
    unfold get_content_name
    rw [playlistBranch_pos hp hn hne]
  · intro s platform ctype cid pi userId now hn
    unfold get_content_name
    rw [playlistBranch_noname hn]
    simp [contentNameTail]
  · intro s platform ctype cid userId now
    unfold get_content_name
    rw [show playlistBranch ctype none = none from rfl]
    simp [contentNameTail]
  · intro platform ctype cid pi userId now hn
    unfold get_content_name
    rw [playlistBranch_noname hn]
    simp [contentNameTail, fallbackName]

theorem c9_amended_witness :
    get_content_name [] "spotify" "playlist" (some "p1")
      (some { initProgress with playlist_name := some "Mix" }) 7 0 = "Mix" :=
  c9_amended.1 [] "spotify" "playlist" (some "p1") _ 7 0 "Mix"
    (Or.inr (Or.inl rfl)) rfl (by decide)

/-! ## Claim C8 -/

/-- Claim C8 is refuted on the code: the extension is kept only up to its
first 10 characters (`ext[:10]`, `bot.py` 136) and is never sanitized, so
for `a.bcdefghijkl` (a 12-character extension) the result `a.bcdefghij`
does not end with the original extension intact. -/
theorem c8_counterexample :
    safe_filename nfkdAsciiId ("a.bcdefghijkl".toList) 240 = "a.bcdefghij".toList ∧
    ¬ (".bcdefghijkl".toList <:+ safe_filename nfkdAsciiId ("a.bcdefghijkl".toList) 240) := by
  constructor
  · decide
  · intro hsuf
    have hlen := hsuf.length_le
    rw [show safe_filename nfkdAsciiId ("a.bcdefghijkl".toList) 240 = "a.bcdefghij".toList
        from by decide] at hlen
    revert hlen
    decide

/-- Claim C8 as amended: for every filename and bound at least the length of
the kept extension, the result is the sanitized base followed by the
extension truncated to at most 10 characters: the base part contains only
ASCII, path-safe characters, the total length is within the bound, and the
result ends with the truncated extension (which, unlike the base, is
neither sanitized nor guaranteed ASCII or intact). -/
theorem c8_amended :
    ∀ (nfkd : List Char → List Char) (f : List Char) (n : Int),
      ((sfExt f).length : Int) ≤ n →
      safe_filename nfkd f n = sfBase nfkd f n ++ sfExt f ∧
      (∀ c ∈ sfBase nfkd f n, c.toNat < 128 ∧ unsafeChar c = false) ∧
      ((safe_filename nfkd f n).length : Int) ≤ n ∧
      sfExt f <:+ safe_filename nfkd f n ∧
      (sfExt f).length ≤ 10 := by
  intro nfkd f n h
  refine ⟨rfl, sfBase_props, ?_, ⟨sfBase nfkd f n, rfl⟩, sfExt_len f⟩
  have h1 := @sfBase_length nfkd f n h
  unfold safe_filename
  rw [List.length_append]
  push_cast
  omega

theorem c8_amended_witness :
    ((safe_filename nfkdAsciiId ("My Song*.mp3".toList) 240).length : Int) ≤ 240 :=
  (c8_amended nfkdAsciiId ("My Song*.mp3".toList) 240 (by decide)).2.2.1

/-! ## Claim C10 -/

/-- Claim C10 is refuted on the code: `safe_filename("zzz.a b", 4)` truncates
the whole base away, returning `.a b`; re-applying the function re-parses
`.a b` as a dotfile with no extension, so the previously protected
extension characters are now sanitized, giving `.a_b ≠ .a b`.  The bound 4
is no smaller than the kept extension's length (4), nor than the result's
own extension length (0), so the claim's proviso is met under either
reading. -/
theorem c10_counterexample :
    safe_filename nfkdAsciiId ("zzz.a b".toList) 4 = ".a b".toList ∧
    safe_filename nfkdAsciiId (safe_filename nfkdAsciiId ("zzz.a b".toList) 4) 4
      = ".a_b".toList ∧
    safe_filename nfkdAsciiId (safe_filename nfkdAsciiId ("zzz.a b".toList) 4) 4
      ≠ safe_filename nfkdAsciiId ("zzz.a b".toList) 4 ∧
    ((sfExt ("zzz.a b".toList)).length : Int) ≤ 4 ∧
    ((sfExt (safe_filename nfkdAsciiId ("zzz.a b".toList) 4)).length : Int) ≤ 4 :=
  ⟨by decide, by decide, by decide, by decide, by decide⟩

theorem sfBase_eq (nfkd : List Char → List Char) (f : List Char) (n : Int) :
    sfBase nfkd f n =
      if n - ((sfExt f).length : Int)
          < ((sanitize (asciiFilter (nfkd (splitext f).1))).length : Int)
      then pySlice (sanitize (asciiFilter (nfkd (splitext f).1))) (n - ((sfExt f).length : Int))
      else sanitize (asciiFilter (nfkd (splitext f).1)) := rfl

/-- Claim C10 as amended: `safe_filename` is idempotent for every filename
whose kept extension is nonempty, with a bound leaving room for that
extension, provided the truncated base still contains a non-dot character —
re-applying the function then re-splits the result identically and changes
nothing.  (When truncation erases the base, or the extension is empty and a
sanitized character exposes a new one, idempotence genuinely fails, as the
counterexample shows.)  The normalization function is assumed to fix ASCII
strings, as NFKD does. -/
theorem c10_amended :
    ∀ (nfkd : List Char → List Char),
      (∀ l : List Char, (∀ c ∈ l, c.toNat < 128) → nfkd l = l) →
      ∀ (f : List Char) (n : Int),
        ((sfExt f).length : Int) ≤ n →
        sfExt f ≠ [] →
        (∃ c ∈ sfBase nfkd f n, c ≠ '.') →
        safe_filename nfkd (safe_filename nfkd f n) n = safe_filename nfkd f n := by
  intro nfkd hid f n hn hne hnd
  rcases sfExt_shape f with hcase | ⟨rest, hrest, hprop⟩
  · exact absurd hcase hne
  · have hbprops := @sfBase_props nfkd f n
    have hbascii : ∀ c ∈ sfBase nfkd f n, c.toNat < 128 := fun c hc => (hbprops c hc).1
    have hbclean : ∀ c ∈ sfBase nfkd f n, unsafeChar c = false := fun c hc => (hbprops c hc).2
    have hbslash : ∀ c ∈ sfBase nfkd f n, c ≠ '/' := by
      intro c hc hcc
      have h2 := hbclean c hc
      rw [hcc] at h2
      exact absurd h2 (by decide)
    have hsplit : splitext (sfBase nfkd f n ++ '.' :: rest) = (sfBase nfkd f n, '.' :: rest) :=
      splitext_append hbslash hprop hnd
    have hlen10 : ('.' :: rest).length ≤ 10 := hrest ▸ sfExt_len f
    have hsnd : sfExt (sfBase nfkd f n ++ '.' :: rest) = '.' :: rest := by
      unfold sfExt
      simp only [hsplit]
      rw [if_neg (by omega)]
    have hfst : (splitext (sfBase nfkd f n ++ '.' :: rest)).1 = sfBase nfkd f n := by
      rw [hsplit]
    have hbase2 : sanitize (asciiFilter (nfkd (sfBase nfkd f n))) = sfBase nfkd f n := by
      rw [hid _ hbascii, asciiFilter_id _ hbascii]
      exact sanitizeAux_id _ hbclean false
    have hblen : ((sfBase nfkd f n).length : Int) ≤ n - (('.' :: rest).length : Int) := by
      have h := @sfBase_length nfkd f n hn
      rw [hrest] at h
      exact_mod_cast h
    have hres : safe_filename nfkd f n = sfBase nfkd f n ++ '.' :: rest := by
      unfold safe_filename
      rw [hrest]
    rw [hres]
    unfold safe_filename
    have hbase3 : sfBase nfkd (sfBase nfkd f n ++ '.' :: rest) n = sfBase nfkd f n := by
      rw [sfBase_eq nfkd (sfBase nfkd f n ++ '.' :: rest) n, hfst, hbase2, hsnd]
      rw [if_neg (by omega)]
    rw [hbase3, hsnd]

theorem c10_amended_witness :
    safe_filename nfkdAsciiId (safe_filename nfkdAsciiId ("My Song.mp3".toList) 240) 240
      = safe_filename nfkdAsciiId ("My Song.mp3".toList) 240 :=
  c10_amended nfkdAsciiId (fun _ _ => rfl) ("My Song.mp3".toList) 240
    (by decide) (by decide) ⟨'M', by decide, by decide⟩

end Musico
